import Mathlib

/-!
Shallow embedding of the ESG Excel analyzer core
(repository `psistla/testprojects`, file `esg-excel-azure-function-improved.py`).

The repository ships `utils/document_analyzer_improved.py` (structuring of the
document-intelligence output: `_structure_results`, `_extract_table_data`,
`_is_valid_kvp`), the Azure function app, and the unit tests
`test_esg_processor.py`.  The ESG data-processing core
(`utils/data_processor.py`, class `ESGDataProcessor` with `_parse_value`,
`_categorize_text`, `_extract_metrics_from_table`, `process_esg_data`) is
referenced by the tests and the function app but its file is not part of the
repository; those components are modelled here from the specification, and
each such definition is marked `Modelled from the spec:` in its doc comment.

Numbers are embedded as `ℚ` (exact rationals) in place of Python floats, and
machine-level concerns (logging, Azure SDK calls) are out of scope.  Python
string operations are modelled at the character-list level: `str.lower` as a
character-wise `Char.toLower` map, `str.strip` as dropping whitespace from
both ends, `in` as contiguous-substring search.
-/

/-- ESG category assigned by the classifier. -/
inductive Category where
  | environmental
  | social
  | governance
  | unknown
deriving DecidableEq

/-- Provenance of an extracted metric. -/
inductive Source where
  | table
  | key_value_pair
deriving DecidableEq

/-- Modelled from the spec: environmental keyword list of
`ESGDataProcessor._categorize_text` (file `utils/data_processor.py` is absent
from the repository). -/
def environmental_keywords : List String :=
  ["carbon", "emission", "ghg", "renewable", "energy", "water", "waste"]

/-- Modelled from the spec: social keyword list of
`ESGDataProcessor._categorize_text`. -/
def social_keywords : List String :=
  ["employee", "diversity", "safety", "community", "customer", "privacy", "labor"]

/-- Modelled from the spec: governance keyword list of
`ESGDataProcessor._categorize_text`. -/
def governance_keywords : List String :=
  ["board", "compliance", "audit", "ethics", "risk management", "executive"]

/-- Does `needle` occur at the head of `hay`? (char-list level). -/
def startsWithChars : List Char → List Char → Bool
  | [], _ => true
  | _ :: _, [] => false
  | n :: ns, h :: hs => n = h && startsWithChars ns hs

/-- Does `needle` occur as a contiguous substring of `hay`? (char-list level,
models Python's `in` operator on strings). -/
def hasSubstringChars (needle : List Char) : List Char → Bool
  | [] => startsWithChars needle []
  | h :: hs => startsWithChars needle (h :: hs) || hasSubstringChars needle hs

/-- Character-wise lowercasing; models Python's `str.lower` on the ASCII
labels this pipeline deals with. -/
def toLowerChars (l : List Char) : List Char := l.map Char.toLower

/-- Drop whitespace from both ends; models Python's `str.strip()`. -/
def trimChars (l : List Char) : List Char :=
  ((l.dropWhile Char.isWhitespace).reverse.dropWhile Char.isWhitespace).reverse

/-- String-level wrapper of `trimChars`; models Python's `str.strip()`. -/
def pyStrip (s : String) : String := String.mk (trimChars s.data)

/-- Does the (already lowercased) text contain one of the keywords? -/
def textMatches (lt : List Char) (keywords : List String) : Bool :=
  keywords.any (fun k => hasSubstringChars k.data lt)

/-- Modelled from the spec: `ESGDataProcessor._categorize_text` — lowercase
the text, then test the per-category keyword lists by substring matching in
the fixed priority order environmental, social, governance; fall back to
`unknown`. -/
def categorize_text (t : String) : Category :=
  let lt := toLowerChars t.data
  if textMatches lt environmental_keywords then Category.environmental
  else if textMatches lt social_keywords then Category.social
  else if textMatches lt governance_keywords then Category.governance
  else Category.unknown

/-- Strip an optional leading sign from a character list, returning
(is-negative, remaining characters). -/
def dropSign (cs : List Char) : Bool × List Char :=
  match cs with
  | c :: rest =>
    if c = '-' then (true, rest)
    else if c = '+' then (false, rest)
    else (false, cs)
  | [] => (false, [])

/-- Split an optional fractional part `.ddd` from the head of a character
list, returning (fraction digits, remaining characters). -/
def fracSplit (cs : List Char) : List Char × List Char :=
  match cs with
  | c :: rest =>
    if c = '.' then
      let f := rest.takeWhile Char.isDigit
      if f.isEmpty then ([], cs) else (f, rest.dropWhile Char.isDigit)
    else ([], cs)
  | [] => ([], [])

/-- Numeric value of a list of decimal digit characters. -/
def digitsToNat (l : List Char) : ℕ :=
  l.foldl (fun a c => 10 * a + (c.toNat - 48)) 0

/-- Modelled from the spec: `ESGDataProcessor._parse_value` — strip thousands
separators (commas), extract the leading numeric token (optionally signed,
optionally decimal), treat the trimmed trailing remainder as the unit,
normalize an empty unit to absent, and return `none` when no leading numeric
token exists.  The digits `d₁…dₘ.f₁…fₖ` denote the rational
`(d₁…dₘf₁…fₖ) / 10ᵏ`, assembled with `mkRat`.  Fallibility is the `Option`
result; the function is total, so no exception reaches the caller. -/
def parse_value (s : String) : Option (ℚ × Option String) :=
  let cs := s.data.filter (fun c => c != ',')
  let sign := (dropSign cs).1
  let cs1 := (dropSign cs).2
  let intPart := cs1.takeWhile Char.isDigit
  let rest1 := cs1.dropWhile Char.isDigit
  if intPart.isEmpty then none
  else
    let fracPart := (fracSplit rest1).1
    let rest2 := (fracSplit rest1).2
    let mag : ℚ := mkRat (Int.ofNat (digitsToNat (intPart ++ fracPart))) (10 ^ fracPart.length)
    let value : ℚ := if sign then -mag else mag
    let unit := String.mk (trimChars rest2)
    some (value, if unit = "" then none else some unit)

/-- The key-value confidence threshold of `_is_valid_kvp`
(`esg-excel-azure-function-improved.py`, line 258): `0.5`. -/
def CONFIDENCE_THRESHOLD : ℚ := mkRat 1 2

/-- A key-value pair as the upstream document-intelligence service delivers
it, before `_structure_results` filters it (loosely typed: the source probes
it with `hasattr`/`getattr`).  A field `some none` models a Python attribute
that is present but `None`; `none` models a missing attribute; `some (some s)`
models an element object whose `content` is the string `s`. -/
structure RawKVP where
  key : Option (Option String)
  value : Option (Option String)
  confidence : Option ℚ
deriving DecidableEq

/-- Embeds `DocumentAnalyzerImproved._is_valid_kvp` (lines 247-261): the pair must
be non-`None`, must carry `key` and `value` attributes, and
`getattr(kvp, 'confidence', 0.0)` must not be below `0.5`.  The contents of
key and value are not inspected. -/
def is_valid_kvp : Option RawKVP → Bool
  | none => false
  | some k =>
    if k.key.isNone || k.value.isNone then false
    else !(decide (k.confidence.getD 0 < CONFIDENCE_THRESHOLD))

/-- Embeds `kvp.key.content if kvp.key else ""` (lines 179-180): a present element
yields its content, a `None` element yields the empty string.  The attribute
itself is known to exist here because `_is_valid_kvp` ran first. -/
def kvp_content (field : Option (Option String)) : String :=
  match field with
  | some (some s) => s
  | _ => ""

/-- A structured key-value pair as `_structure_results` emits it. -/
structure KVPData where
  key : String
  value : String
  confidence : ℚ
deriving DecidableEq

/-- The key-value-pair loop of `DocumentAnalyzerImproved._structure_results`
(lines 174-186): keep exactly the pairs accepted by `_is_valid_kvp`, reading
out the key and value contents and `getattr(kvp, 'confidence', 0.0)`. -/
def structure_kvps (kvps : List (Option RawKVP)) : List KVPData :=
  kvps.filterMap (fun ok =>
    if is_valid_kvp ok then
      match ok with
      | some k => some ⟨kvp_content k.key, kvp_content k.value, k.confidence.getD 0⟩
      | none => none
    else none)

/-- A raw table cell as the upstream service delivers it to
`_extract_table_data`.  `content`, `row_span` and `column_span` are optional
because the source guards them (`if cell.content`, `getattr(..., 1)`);
`row_index` and `column_index` are accessed unconditionally. -/
structure InCell where
  row_index : ℕ
  column_index : ℕ
  content : Option String
  row_span : Option ℕ
  column_span : Option ℕ
deriving DecidableEq

/-- A structured cell as `_extract_table_data` emits it. -/
structure OutCell where
  row_index : ℕ
  column_index : ℕ
  content : String
  row_span : ℕ
  column_span : ℕ
  is_header : Bool
deriving DecidableEq

/-- A raw table as the upstream service delivers it: `row_count` and
`column_count` read with `getattr` defaults elsewhere, and a cell list that
may be absent (`hasattr(table, 'cells')`). -/
structure InTable where
  row_count : ℕ
  column_count : ℕ
  cells : Option (List InCell)
deriving DecidableEq

/-- A structured table as `_extract_table_data` emits it. -/
structure TableData where
  table_id : ℕ
  row_count : ℕ
  column_count : ℕ
  cells : List OutCell
  headers : List String
deriving DecidableEq

/-- Sort key order on cell positions: the lexicographic order Python's
`sorted(..., key=lambda c: (c.row_index, c.column_index))` uses. -/
def posLe (p q : ℕ × ℕ) : Prop :=
  p.1 < q.1 ∨ (p.1 = q.1 ∧ p.2 ≤ q.2)

/-- Strict version of `posLe`. -/
def posLt (p q : ℕ × ℕ) : Prop :=
  p.1 < q.1 ∨ (p.1 = q.1 ∧ p.2 < q.2)

instance : DecidableRel posLe := fun p q => by
  unfold posLe
  infer_instance

instance : DecidableRel posLt := fun p q => by
  unfold posLt
  infer_instance

/-- Position of a raw cell, the sort key of `_extract_table_data`. -/
def inPos (c : InCell) : ℕ × ℕ := (c.row_index, c.column_index)

/-- Position of a structured cell. -/
def outPos (c : OutCell) : ℕ × ℕ := (c.row_index, c.column_index)

/-- Sort order on raw cells used by `_extract_table_data` (lines 223-227). -/
def inCellLe (a b : InCell) : Prop := posLe (inPos a) (inPos b)

/-- Strict sort order on raw cells. -/
def inCellLt (a b : InCell) : Prop := posLt (inPos a) (inPos b)

instance : DecidableRel inCellLe := fun a b => by
  unfold inCellLe
  infer_instance

instance : DecidableRel inCellLt := fun a b => by
  unfold inCellLt
  infer_instance

/-- Embeds `sorted(table.cells, key=lambda c: (c.row_index, c.column_index))`
(lines 224-227), modelled by a stable sort (Python's `sorted` is stable). -/
def sortInCells (l : List InCell) : List InCell := l.insertionSort inCellLe

/-- The per-cell body of the loop in `_extract_table_data` (lines 229-237):
strip the content (empty when the attribute is falsy), default the spans to
1, and mark the cell as header exactly when its row index is 0. -/
def toOutCell (c : InCell) : OutCell :=
  { row_index := c.row_index
    column_index := c.column_index
    content :=
      match c.content with
      | none => ""
      | some s => if s = "" then "" else pyStrip s
    row_span := c.row_span.getD 1
    column_span := c.column_span.getD 1
    is_header := decide (c.row_index = 0) }

/-- Embeds `DocumentAnalyzerImproved._extract_table_data` (lines 212-245): sort the
cells by `(row_index, column_index)`, structure each cell, and collect the
contents of the header cells (row 0) into `headers`.  A table without a
`cells` attribute yields an empty cell list. -/
def extract_table_data (table : InTable) (table_idx : ℕ) : TableData :=
  match table.cells with
  | none =>
    { table_id := table_idx
      row_count := table.row_count
      column_count := table.column_count
      cells := []
      headers := [] }
  | some cs =>
    let outCells := (sortInCells cs).map toOutCell
    { table_id := table_idx
      row_count := table.row_count
      column_count := table.column_count
      cells := outCells
      headers := outCells.filterMap (fun c => if c.is_header then some c.content else none) }

/-- The table loop of `DocumentAnalyzerImproved._structure_results`
(lines 164-171): structure each table with its index and keep only tables
whose structured cell list is non-empty. -/
def structure_tables (tables : List InTable) : List TableData :=
  (tables.enum.map (fun p => extract_table_data p.2 p.1)).filter
    (fun td => !td.cells.isEmpty)

/-- An ESG metric record, the core output unit. -/
structure ESGMetric where
  category : Category
  metric_name : String
  value : ℚ
  unit : Option String
  confidence : ℚ
  source : Source
deriving DecidableEq

/-- Modelled from the spec: the fixed default confidence that
`ESGDataProcessor._extract_metrics_from_table` assigns to table-derived
metrics (no confidence signal is available from tabular layout; the spec
fixes the policy but not the numeral, so one constant is chosen here). -/
def TABLE_CONFIDENCE : ℚ := mkRat 8 10

/-- Sort order on structured cells by position. -/
def outCellLe (a b : OutCell) : Prop := posLe (outPos a) (outPos b)

instance : DecidableRel outCellLe := fun a b => by
  unfold outCellLe
  infer_instance

/-- Structured cells sorted by `(row_index, column_index)`; the deterministic
processing order of §4.3 of the spec. -/
def sortOutCells (l : List OutCell) : List OutCell := l.insertionSort outCellLe

/-- Largest row index occurring in a cell list (0 for an empty list). -/
def maxRow (cells : List OutCell) : ℕ :=
  cells.foldr (fun c m => max c.row_index m) 0

/-- The cells of row `r`, in column order. -/
def rowOf (cells : List OutCell) (r : ℕ) : List OutCell :=
  (sortOutCells cells).filter (fun c => decide (c.row_index = r))

/-- Modelled from the spec: the candidate label/value pair of one data row —
label is the content of the first cell, value the content of the second; the
row is skipped when it has fewer than two cells, the trimmed label is empty,
or the value fails to parse. -/
def metricOfRow (row : List OutCell) : Option ESGMetric :=
  match row with
  | c0 :: c1 :: _ =>
    let label := pyStrip c0.content
    if label = "" then none
    else
      match parse_value c1.content with
      | none => none
      | some (v, u) =>
        some { category := categorize_text label
               metric_name := label
               value := v
               unit := u
               confidence := TABLE_CONFIDENCE
               source := Source.table }
  | _ => none

/-- Modelled from the spec: `ESGDataProcessor._extract_metrics_from_table` —
row 0 is the header and yields nothing; every further row (in ascending row
order, cells in column order) contributes at most one metric via
`metricOfRow`.  The table index parameter is accepted, as in the source
contract, but does not influence the metric records. -/
def extract_metrics_from_table (table : TableData) (_table_idx : ℕ) : List ESGMetric :=
  (List.range' 1 (maxRow table.cells)).filterMap
    (fun r => metricOfRow (rowOf table.cells r))

/-- Modelled from the spec: `ESGDataProcessor._extract_metrics_from_kvps` —
for each valid pair (non-empty key and value, confidence at least 0.5),
classify the key, parse the value, drop the pair when parsing fails or the
trimmed name is empty, and carry the source confidence through. -/
def extract_metrics_from_kvps (kvps : List KVPData) : List ESGMetric :=
  kvps.filterMap (fun k =>
    if k.key = "" ∨ k.value = "" ∨ k.confidence < CONFIDENCE_THRESHOLD then none
    else
      let name := pyStrip k.key
      if name = "" then none
      else
        match parse_value k.value with
        | none => none
        | some (v, u) =>
          some { category := categorize_text name
                 metric_name := name
                 value := v
                 unit := u
                 confidence := k.confidence
                 source := Source.key_value_pair })

/-- The deduplication key of the aggregator:
`(category, metric_name, value, unit)`. -/
def dedupKey (m : ESGMetric) : Category × String × ℚ × Option String :=
  (m.category, m.metric_name, m.value, m.unit)

/-- Worker of `dedupMetrics`: keep a metric exactly when its key has not been
seen yet, first occurrence first. -/
def dedupGo (seen : List (Category × String × ℚ × Option String)) :
    List ESGMetric → List ESGMetric
  | [] => []
  | m :: rest =>
    if dedupKey m ∈ seen then dedupGo seen rest
    else m :: dedupGo (dedupKey m :: seen) rest

/-- Modelled from the spec: deduplication by `(category, metric_name, value,
unit)`; identical tuples collapse to one entry and the first occurrence wins. -/
def dedupMetrics (l : List ESGMetric) : List ESGMetric := dedupGo [] l

/-- The summary block of the output contract. -/
structure Summary where
  total_metrics : ℕ
  environmental : ℕ
  social : ℕ
  governance : ℕ
  average_confidence : ℚ
deriving DecidableEq

/-- Modelled from the spec: the summary is recomputed from the final metric
set — total count, count per category, and the mean confidence (0 when the
set is empty). -/
def computeSummary (ms : List ESGMetric) : Summary :=
  { total_metrics := ms.length
    environmental := (ms.filter (fun m => decide (m.category = Category.environmental))).length
    social := (ms.filter (fun m => decide (m.category = Category.social))).length
    governance := (ms.filter (fun m => decide (m.category = Category.governance))).length
    average_confidence :=
      if ms.isEmpty then 0
      else (ms.map ESGMetric.confidence).sum * mkRat 1 ms.length }

/-- The structured extraction payload the aggregator consumes: the tables and
key-value pairs of §6 of the spec (passthrough metadata is not interpreted by
the core and is omitted). -/
structure ExtractionResult where
  tables : List TableData
  key_value_pairs : List KVPData
deriving DecidableEq

/-- The concatenation of all table metrics (tables in order, with their
indices) and all key-value metrics, before deduplication. -/
def allMetrics (input : ExtractionResult) : List ESGMetric :=
  (input.tables.enum.map (fun p => extract_metrics_from_table p.2 p.1)).flatten
    ++ extract_metrics_from_kvps input.key_value_pairs

/-- Modelled from the spec: `ESGDataProcessor.process_esg_data` — run the
table extractor over every table, the key-value extractor over every pair,
concatenate, deduplicate, and compute the summary.  A pure function of its
input payload. -/
def process_esg_data (input : ExtractionResult) : List ESGMetric × Summary :=
  let ms := dedupMetrics (allMetrics input)
  (ms, computeSummary ms)

theorem takeWhile_eq_nil_of_forall (p : Char → Bool) (l : List Char)
    (h : ∀ c ∈ l, p c = false) : l.takeWhile p = [] := by
  cases l with
  | nil => rfl
  | cons a l =>
    rw [List.takeWhile_cons, h a (List.mem_cons_self a l)]
    simp

theorem dropSign_sub (cs : List Char) : ∀ c ∈ (dropSign cs).2, c ∈ cs := by
  cases cs with
  | nil => simp [dropSign]
  | cons a l =>
    simp only [dropSign]
    split
    · exact fun c hc => List.mem_cons_of_mem a hc
    · split
      · exact fun c hc => List.mem_cons_of_mem a hc
      · exact fun c hc => hc

/-- C1: `parse_value` returns a (number, unit) pair or `none` and never
raises (it is a total `Option`-valued function): `"123.45"` parses to
`(123.45, none)`, `"1,234.56 kg"` to `(1234.56, some "kg")`, `"45%"` to
`(45, some "%")`, and every string without a digit — hence without an
extractable leading numeric token, such as `"invalid"` — yields `none`. -/
theorem parse_value_contract :
    parse_value "123.45" = some (mkRat 12345 100, none) ∧
    parse_value "1,234.56 kg" = some (mkRat 123456 100, some "kg") ∧
    parse_value "45%" = some ((45 : ℚ), some "%") ∧
    ∀ s : String, (∀ c ∈ s.data, c.isDigit = false) → parse_value s = none := by
  refine ⟨by decide, by decide, by decide, ?_⟩
  intro s h
  have h1 : ∀ c ∈ (dropSign (s.data.filter (fun c => c != ','))).2, c.isDigit = false := by
    intro c hc
    exact h c (List.mem_filter.1 (dropSign_sub _ c hc)).1
  have h2 : (dropSign (s.data.filter (fun c => c != ','))).2.takeWhile Char.isDigit = [] :=
    takeWhile_eq_nil_of_forall _ _ h1
  simp [parse_value, h2]

/-- Witness for C1 at the concrete input `"invalid"`. -/
theorem parse_value_contract_witness : parse_value "invalid" = none :=
  parse_value_contract.2.2.2 "invalid" (by decide)

/-- C2: every text whose lowercasing contains `"carbon"` or `"emission"` as a
substring is classified as environmental. -/
theorem categorize_carbon_emission (t : String)
    (h : hasSubstringChars "carbon".data (toLowerChars t.data) = true ∨
         hasSubstringChars "emission".data (toLowerChars t.data) = true) :
    categorize_text t = Category.environmental := by
  have hm : textMatches (toLowerChars t.data) environmental_keywords = true := by
    unfold textMatches
    rcases h with h | h
    · exact List.any_eq_true.2 ⟨"carbon", by decide, h⟩
    · exact List.any_eq_true.2 ⟨"emission", by decide, h⟩
  simp [categorize_text, hm]

/-- Witness for C2 at the concrete input `"Carbon Emissions"`. -/
theorem categorize_carbon_emission_witness :
    categorize_text "Carbon Emissions" = Category.environmental :=
  categorize_carbon_emission "Carbon Emissions" (Or.inl (by decide))

/-- C3 counterexample: the claim "a pair is accepted into the extraction
output only if its key is non-empty" is false — a pair whose key element has
empty content but whose confidence is 0.9 is accepted and emitted with an
empty key. -/
theorem kvp_filter_counterexample :
    ¬ (∀ (l : List (Option RawKVP)) (d : KVPData), d ∈ structure_kvps l → d.key ≠ "") := by
  intro h
  exact h [some ⟨some (some ""), some (some "42 kg"), some (mkRat 9 10)⟩]
    ⟨"", "42 kg", mkRat 9 10⟩ (by decide) rfl

/-- C3 amended: a pair is accepted into the extraction output iff it is
present, carries `key` and `value` attributes, and its confidence is at least
0.5 — the contents of key and value are not checked for emptiness.  A pair
with confidence 0.4 is excluded entirely, one with confidence 0.5 is
included; below-threshold pairs are silently discarded, not errored. -/
theorem kvp_filter_amended :
    (∀ k : RawKVP, is_valid_kvp (some k) = true ↔
        (k.key.isSome = true ∧ k.value.isSome = true ∧
          CONFIDENCE_THRESHOLD ≤ k.confidence.getD 0)) ∧
    is_valid_kvp none = false ∧
    structure_kvps [some ⟨some (some "Energy"), some (some "5 MWh"), some (mkRat 2 5)⟩] = [] ∧
    structure_kvps [some ⟨some (some "Energy"), some (some "5 MWh"), some (mkRat 1 2)⟩] =
      [⟨"Energy", "5 MWh", mkRat 1 2⟩] := by
  refine ⟨?_, by decide, by decide, by decide⟩
  intro k
  rcases k with ⟨key, value, conf⟩
  rcases key with _ | ke <;> rcases value with _ | ve <;>
    simp [is_valid_kvp, not_lt]

/-- Witness for C3: a present pair with both attributes and confidence 1 is
accepted. -/
theorem kvp_filter_amended_witness :
    is_valid_kvp (some ⟨some (some "A"), some (some "B"), some 1⟩) = true :=
  (kvp_filter_amended.1 ⟨some (some "A"), some (some "B"), some 1⟩).2
    ⟨rfl, rfl, by decide⟩

/-- The table of the C4 claim: header row `["Metric","Value"]`, one data row
`["Carbon Emissions","1,234 tons"]`. -/
def c4_table : TableData :=
  { table_id := 0
    row_count := 2
    column_count := 2
    cells :=
      [⟨0, 0, "Metric", 1, 1, true⟩, ⟨0, 1, "Value", 1, 1, true⟩,
       ⟨1, 0, "Carbon Emissions", 1, 1, false⟩, ⟨1, 1, "1,234 tons", 1, 1, false⟩]
    headers := ["Metric", "Value"] }

/-- C4: on the claim's table the extractor returns exactly one metric, with
category environmental, name "Carbon Emissions", value 1234 and unit
"tons". -/
theorem extract_metrics_c4 :
    extract_metrics_from_table c4_table 0 =
      [⟨Category.environmental, "Carbon Emissions", 1234, some "tons",
        TABLE_CONFIDENCE, Source.table⟩] := by
  decide

/-- C6: the empty input payload yields an empty metric list and a zero-valued
summary (in particular `total_metrics = 0`), and no exception — the
aggregator is a total function. -/
theorem process_esg_data_empty :
    (process_esg_data ⟨[], []⟩).1 = [] ∧
    (process_esg_data ⟨[], []⟩).2 = ⟨0, 0, 0, 0, 0⟩ := by
  decide

/-- C7: the aggregator is deterministic — it is a pure function of the input
payload (the embedding has no state, clock or randomness), so two runs on
equal payloads yield identical metric lists and identical summaries. -/
theorem process_esg_data_deterministic (i1 i2 : ExtractionResult) (h : i1 = i2) :
    (process_esg_data i1).1 = (process_esg_data i2).1 ∧
    (process_esg_data i1).2 = (process_esg_data i2).2 := by
  rw [h]
  exact ⟨rfl, rfl⟩

/-- A concrete payload for the C7 witness. -/
def c7_input : ExtractionResult :=
  ⟨[c4_table], [⟨"Water usage", "88 m3", mkRat 3 4⟩]⟩

/-- Witness for C7 at a concrete payload. -/
theorem process_esg_data_deterministic_witness :
    (process_esg_data c7_input).1 = (process_esg_data c7_input).1 ∧
    (process_esg_data c7_input).2 = (process_esg_data c7_input).2 :=
  process_esg_data_deterministic c7_input c7_input rfl

theorem dedupGo_sublist (seen : List (Category × String × ℚ × Option String))
    (l : List ESGMetric) : (dedupGo seen l).Sublist l := by
  induction l generalizing seen with
  | nil => simp [dedupGo]
  | cons m rest ih =>
    by_cases hmem : dedupKey m ∈ seen
    · simp only [dedupGo, if_pos hmem]
      exact (ih seen).trans (List.sublist_cons_self m rest)
    · simp only [dedupGo, if_neg hmem]
      exact List.Sublist.cons₂ m (ih _)

theorem dedupGo_not_mem_seen (seen : List (Category × String × ℚ × Option String))
    (l : List ESGMetric) : ∀ y ∈ dedupGo seen l, dedupKey y ∉ seen := by
  induction l generalizing seen with
  | nil => simp [dedupGo]
  | cons m rest ih =>
    by_cases hmem : dedupKey m ∈ seen
    · simp only [dedupGo, if_pos hmem]
      exact ih seen
    · simp only [dedupGo, if_neg hmem]
      intro y hy
      rcases List.mem_cons.1 hy with rfl | h
      · exact hmem
      · exact fun hc => ih (dedupKey m :: seen) y h (List.mem_cons_of_mem _ hc)

theorem dedupGo_pairwise (seen : List (Category × String × ℚ × Option String))
    (l : List ESGMetric) :
    (dedupGo seen l).Pairwise (fun a b => dedupKey a ≠ dedupKey b) := by
  induction l generalizing seen with
  | nil => simp [dedupGo]
  | cons m rest ih =>
    by_cases hmem : dedupKey m ∈ seen
    · simpa only [dedupGo, if_pos hmem] using ih seen
    · simp only [dedupGo, if_neg hmem]
      refine List.Pairwise.cons ?_ (ih _)
      intro y hy he
      exact dedupGo_not_mem_seen (dedupKey m :: seen) rest y hy
        (by rw [← he]; exact List.mem_cons_self _ _)

theorem dedupGo_find (seen : List (Category × String × ℚ × Option String))
    (l : List ESGMetric) : ∀ x ∈ l, dedupKey x ∉ seen →
    ∃ y ∈ dedupGo seen l, l.find? (fun m => decide (dedupKey m = dedupKey x)) = some y := by
  induction l generalizing seen with
  | nil => simp
  | cons m rest ih =>
    intro x hx hxs
    by_cases hk : dedupKey m = dedupKey x
    · have hmem : dedupKey m ∉ seen := by rw [hk]; exact hxs
      refine ⟨m, ?_, ?_⟩
      · simp only [dedupGo, if_neg hmem]
        exact List.mem_cons_self _ _
      · exact List.find?_cons_of_pos _ (by simpa using hk)
    · have hfind : (m :: rest).find? (fun m' => decide (dedupKey m' = dedupKey x)) =
          rest.find? (fun m' => decide (dedupKey m' = dedupKey x)) :=
        List.find?_cons_of_neg _ (by simpa using hk)
      have hxrest : x ∈ rest := by
        rcases List.mem_cons.1 hx with rfl | h
        · exact absurd rfl hk
        · exact h
      by_cases hmem : dedupKey m ∈ seen
      · obtain ⟨y, hy, hfy⟩ := ih seen x hxrest hxs
        refine ⟨y, ?_, ?_⟩
        · simpa only [dedupGo, if_pos hmem] using hy
        · rw [hfind]; exact hfy
      · have hnotin : dedupKey x ∉ dedupKey m :: seen := by
          intro hc
          rcases List.mem_cons.1 hc with he | hs
          · exact hk he.symm
          · exact hxs hs
        obtain ⟨y, hy, hfy⟩ := ih (dedupKey m :: seen) x hxrest hnotin
        refine ⟨y, ?_, ?_⟩
        · simp only [dedupGo, if_neg hmem]
          exact List.mem_cons_of_mem _ hy
        · rw [hfind]; exact hfy

/-- C5: the final metric list of `process_esg_data` is the concatenated
metric list deduplicated by `(category, metric_name, value, unit)`: it is a
subsequence of the concatenation, no two of its entries share a key, and for
every concatenated metric the entry representing its key is the first
occurrence of that key in the concatenation. -/
theorem process_esg_data_dedup (input : ExtractionResult) :
    ((process_esg_data input).1).Pairwise (fun a b => dedupKey a ≠ dedupKey b) ∧
    ((process_esg_data input).1).Sublist (allMetrics input) ∧
    ∀ x ∈ allMetrics input, ∃ y ∈ (process_esg_data input).1,
      (allMetrics input).find? (fun m => decide (dedupKey m = dedupKey x)) = some y := by
  have hfst : (process_esg_data input).1 = dedupGo [] (allMetrics input) := rfl
  rw [hfst]
  exact ⟨dedupGo_pairwise _ _, dedupGo_sublist _ _,
    fun x hx => dedupGo_find [] _ x hx (List.not_mem_nil _)⟩

/-- A payload producing the same metric tuple twice (different confidences),
for the C5 witness. -/
def c5_input : ExtractionResult :=
  ⟨[], [⟨"Carbon emissions", "10 t", mkRat 9 10⟩, ⟨"Carbon emissions", "10 t", mkRat 8 10⟩]⟩

/-- The first of the two duplicate metrics of `c5_input`. -/
def c5_metric : ESGMetric :=
  ⟨Category.environmental, "Carbon emissions", 10, some "t", mkRat 9 10, Source.key_value_pair⟩

/-- Witness for C5: on `c5_input` the duplicate collapses to its first
occurrence. -/
theorem process_esg_data_dedup_witness :
    ∃ y ∈ (process_esg_data c5_input).1,
      (allMetrics c5_input).find? (fun m => decide (dedupKey m = dedupKey c5_metric)) = some y :=
  (process_esg_data_dedup c5_input).2.2 c5_metric (by decide)

theorem posLe_total (p q : ℕ × ℕ) : posLe p q ∨ posLe q p := by
  rcases p with ⟨a, b⟩
  rcases q with ⟨c, d⟩
  simp only [posLe]
  omega

theorem posLe_trans (p q r : ℕ × ℕ) : posLe p q → posLe q r → posLe p r := by
  rcases p with ⟨a, b⟩
  rcases q with ⟨c, d⟩
  rcases r with ⟨e, f⟩
  simp only [posLe]
  omega

theorem posLt_asymm (p q : ℕ × ℕ) : posLt p q → posLt q p → False := by
  rcases p with ⟨a, b⟩
  rcases q with ⟨c, d⟩
  simp only [posLt]
  omega

theorem posLe_ne_posLt (p q : ℕ × ℕ) (hle : posLe p q) (hne : p ≠ q) : posLt p q := by
  rcases p with ⟨a, b⟩
  rcases q with ⟨c, d⟩
  have hne2 : ¬(a = c ∧ b = d) := by simpa [Prod.ext_iff] using hne
  simp only [posLe] at hle
  simp only [posLt]
  omega

instance : IsTotal InCell inCellLe := ⟨fun _ _ => posLe_total _ _⟩

instance : IsTrans InCell inCellLe := ⟨fun _ _ _ => posLe_trans _ _ _⟩

instance : IsAntisymm InCell inCellLt :=
  ⟨fun _ _ h1 h2 => (posLt_asymm _ _ h1 h2).elim⟩

instance : IsTotal OutCell outCellLe := ⟨fun _ _ => posLe_total _ _⟩

instance : IsTrans OutCell outCellLe := ⟨fun _ _ _ => posLe_trans _ _ _⟩

theorem sortInCells_eq_of_perm (cs cs' : List InCell) (hperm : cs.Perm cs')
    (hdist : cs.Pairwise (fun a b => inPos a ≠ inPos b)) :
    sortInCells cs = sortInCells cs' := by
  have hsymm : ∀ {x y : InCell}, inPos x ≠ inPos y → inPos y ≠ inPos x :=
    fun h he => h he.symm
  have hdist' : cs'.Pairwise (fun a b => inPos a ≠ inPos b) :=
    (hperm.pairwise_iff hsymm).1 hdist
  have hstrict : ∀ (l : List InCell), l.Pairwise (fun a b => inPos a ≠ inPos b) →
      List.Sorted inCellLt (sortInCells l) := by
    intro l hd
    have h1 : List.Sorted inCellLe (sortInCells l) := List.sorted_insertionSort _ _
    have h2 : (sortInCells l).Pairwise (fun a b => inPos a ≠ inPos b) :=
      ((List.perm_insertionSort inCellLe l).pairwise_iff hsymm).2 hd
    exact (h1.and h2).imp (fun h => posLe_ne_posLt _ _ h.1 h.2)
  apply List.eq_of_perm_of_sorted (r := inCellLt)
  · exact (List.perm_insertionSort inCellLe cs).trans
      (hperm.trans (List.perm_insertionSort inCellLe cs').symm)
  · exact hstrict cs hdist
  · exact hstrict cs' hdist'

/-- C8: table extraction processes cells sorted by `(row_index,
column_index)` — the emitted cell list is sorted in that (row-major, then
column-major) order — and, when cell positions are distinct within the table
(the data-model invariant), the output does not depend on the order in which
the cells appear in the input. -/
theorem extract_table_data_order :
    (∀ (t : InTable) (idx : ℕ),
        List.Sorted outCellLe ((extract_table_data t idx).cells)) ∧
    (∀ (rc cc idx : ℕ) (cs cs' : List InCell),
        cs.Perm cs' →
        cs.Pairwise (fun a b => inPos a ≠ inPos b) →
        extract_table_data ⟨rc, cc, some cs⟩ idx =
          extract_table_data ⟨rc, cc, some cs'⟩ idx) := by
  constructor
  · intro t idx
    rcases t with ⟨rc, cc, cells⟩
    cases cells with
    | none => simp [extract_table_data]
    | some cs =>
      simp only [extract_table_data]
      have hs : List.Sorted inCellLe (sortInCells cs) := List.sorted_insertionSort inCellLe cs
      exact List.pairwise_map.2 (hs.imp (fun h => h))
  · intro rc cc idx cs cs' hperm hdist
    have hsort : sortInCells cs = sortInCells cs' := sortInCells_eq_of_perm cs cs' hperm hdist
    simp [extract_table_data, hsort]

/-- One cell of the C8 witness table. -/
def c8_cell_a : InCell := ⟨1, 0, some "Carbon", none, none⟩

/-- The other cell of the C8 witness table. -/
def c8_cell_b : InCell := ⟨0, 0, some "Metric", none, none⟩

/-- Witness for C8: the two input orders of the same two cells yield the same
structured table. -/
theorem extract_table_data_order_witness :
    extract_table_data ⟨2, 1, some [c8_cell_a, c8_cell_b]⟩ 0 =
      extract_table_data ⟨2, 1, some [c8_cell_b, c8_cell_a]⟩ 0 :=
  extract_table_data_order.2 2 1 0 [c8_cell_a, c8_cell_b] [c8_cell_b, c8_cell_a]
    (by decide) (by decide)

/-- C9: a structured cell is marked as header exactly when its row index is
0, uniformly for every input table (also those without a genuine header
row); and every metric the table extractor emits originates from a
label/value cell pair of a row with index at least 1 — header-row cells
never yield metrics. -/
theorem header_row_rule :
    (∀ (t : InTable) (idx : ℕ), ∀ c ∈ (extract_table_data t idx).cells,
        c.is_header = decide (c.row_index = 0)) ∧
    (∀ (table : TableData) (idx : ℕ), ∀ m ∈ extract_metrics_from_table table idx,
        ∃ c0 ∈ table.cells, ∃ c1 ∈ table.cells,
          1 ≤ c0.row_index ∧ c0.row_index = c1.row_index ∧
          m.metric_name = pyStrip c0.content ∧
          parse_value c1.content = some (m.value, m.unit)) := by
  constructor
  · intro t idx c hc
    rcases t with ⟨rc, cc, cells⟩
    cases cells with
    | none => simp [extract_table_data] at hc
    | some cs =>
      simp only [extract_table_data] at hc
      obtain ⟨a, _, rfl⟩ := List.mem_map.1 hc
      rfl
  · intro table idx m hm
    unfold extract_metrics_from_table at hm
    obtain ⟨r, hr, hmr⟩ := List.mem_filterMap.1 hm
    have hr1 : 1 ≤ r := (List.mem_range'_1.1 hr).1
    cases hrow : rowOf table.cells r with
    | nil => rw [hrow] at hmr; simp [metricOfRow] at hmr
    | cons c0 tl =>
      cases tl with
      | nil => rw [hrow] at hmr; simp [metricOfRow] at hmr
      | cons c1 rest =>
        rw [hrow] at hmr
        simp only [metricOfRow] at hmr
        by_cases hlab : pyStrip c0.content = ""
        · rw [if_pos hlab] at hmr
          simp at hmr
        · rw [if_neg hlab] at hmr
          cases hpv : parse_value c1.content with
          | none => rw [hpv] at hmr; simp at hmr
          | some vu =>
            obtain ⟨v, u⟩ := vu
            rw [hpv] at hmr
            simp only [Option.some.injEq] at hmr
            have hc0 : c0 ∈ rowOf table.cells r := by
              rw [hrow]; exact List.mem_cons_self _ _
            have hc1 : c1 ∈ rowOf table.cells r := by
              rw [hrow]; exact List.mem_cons_of_mem _ (List.mem_cons_self _ _)
            rw [rowOf, List.mem_filter] at hc0 hc1
            have hc0m : c0 ∈ table.cells :=
              (List.perm_insertionSort outCellLe table.cells).mem_iff.1 hc0.1
            have hc1m : c1 ∈ table.cells :=
              (List.perm_insertionSort outCellLe table.cells).mem_iff.1 hc1.1
            have hc0r : c0.row_index = r := of_decide_eq_true hc0.2
            have hc1r : c1.row_index = r := of_decide_eq_true hc1.2
            refine ⟨c0, hc0m, c1, hc1m, ?_, ?_, ?_, ?_⟩
            · rw [hc0r]; exact hr1
            · rw [hc0r, hc1r]
            · rw [← hmr]
            · rw [hpv, ← hmr]

/-- A one-cell table for the C9 witness. -/
def c9_table : InTable := ⟨1, 1, some [⟨0, 0, some "Metric", none, none⟩]⟩

/-- Witness for C9 at a concrete cell of a concrete table: the produced
cell's header flag equals the row-0 test. -/
theorem header_row_rule_witness :
    (toOutCell ⟨0, 0, some "Metric", none, none⟩).is_header =
      decide ((toOutCell ⟨0, 0, some "Metric", none, none⟩).row_index = 0) :=
  header_row_rule.1 c9_table 0 (toOutCell ⟨0, 0, some "Metric", none, none⟩) (by decide)

/-- C10: every table entry of the structured extraction output has a
non-empty cell list — tables whose structured cell list is empty are omitted
rather than emitted. -/
theorem structured_tables_nonempty :
    ∀ (tables : List InTable) (td : TableData),
      td ∈ structure_tables tables → td.cells ≠ [] := by
  intro tables td h he
  have h2 := (List.mem_filter.1 h).2
  rw [he] at h2
  simp at h2

/-- A one-cell table for the C10 witness. -/
def c10_table : InTable := ⟨1, 1, some [⟨0, 0, some "X", none, none⟩]⟩

/-- Witness for C10: the structured form of a one-cell table is in the output
and has a non-empty cell list. -/
theorem structured_tables_nonempty_witness :
    (extract_table_data c10_table 0).cells ≠ [] :=
  structured_tables_nonempty [c10_table] (extract_table_data c10_table 0) (by decide)
